import Mathlib

/-!
Verification of the contoured-video pipeline of `src/CCM.py`
(function `ContouredVideoProduction`, lines 29-120).

The Python function is embedded as a pure Lean function over an abstract
environment:
  * `imread : String → Option Img` models `cv2.imread` (`none` = decode
    failure, the Python `None`);
  * `canny : Img → Edg` models `cv2.Canny` followed by
    `cv2.cvtColor(·, COLOR_GRAY2BGR)`; since all three channels of the
    colored edge image are equal, a single-channel grid suffices, and the
    per-channel test `colored_edges > 0` coincides with the per-pixel test
    used here;
  * `np.where(colored_edges > 0, (255,255,255), original).astype(np.uint8)`
    is embedded with NumPy's broadcasting rule (`npWhere`); incompatible
    shapes raise a `ValueError`, modelled as the `broadcastFault` result;
  * directory creation, `VideoWriter` construction, `write`, the skip
    log line and `release` are recorded as an event trace;
  * the Python `IndexError` raised by `masks[i]` when the mask list is
    shorter is the `alignmentFault` result (the spec names this abort
    `AlignmentError`); the early returns on empty input and on an
    unreadable first frame are `emptyInput` and `firstFrameUnreadable`.
`os.path.join` is modelled with the POSIX separator.
-/

namespace CCM

/-- A decoded 3-channel image: height, width, and row-major BGR data
(`cv2.imread` yields a `uint8` array, so channels are below 256 for
well-formed images). -/
structure Img where
  h : Nat
  w : Nat
  data : List (Nat × Nat × Nat)
deriving DecidableEq, Repr

/-- A single-channel grid (the Canny output): height, width, row-major
cell values (0 = no edge, 255 = edge). -/
structure Edg where
  h : Nat
  w : Nat
  data : List Nat
deriving DecidableEq, Repr

/-- Pixel access, row-major, defaulting to black out of range. -/
def Img.px (img : Img) (i j : Nat) : Nat × Nat × Nat :=
  img.data.getD (i * img.w + j) (0, 0, 0)

/-- Cell access of an edge grid, row-major, defaulting to 0. -/
def Edg.px (e : Edg) (i j : Nat) : Nat :=
  e.data.getD (i * e.w + j) 0

/-- Broadcast index: a dimension of extent 1 is repeated (NumPy rule). -/
def bIdx (n i : Nat) : Nat := if n = 1 then 0 else i

/-- NumPy broadcast compatibility of two dimension extents. -/
def compatDim (a b : Nat) : Bool := a == b || a == 1 || b == 1

/-- `astype(np.uint8)` on one pixel. -/
def pix8 : Nat × Nat × Nat → Nat × Nat × Nat :=
  fun p => (p.1 % 256, p.2.1 % 256, p.2.2 % 256)

/-- Row-major grid built from a generator, as NumPy lays out the result
of an elementwise operation. -/
def mkGrid (H W : Nat) (g : Nat → Nat → Nat × Nat × Nat) : List (Nat × Nat × Nat) :=
  ((List.range H).map (fun i => (List.range W).map (g i))).flatten

/-- `np.where(colored_edges > 0, (255, 255, 255), original).astype(np.uint8)`
with NumPy broadcasting: `none` models the `ValueError` on incompatible
shapes. -/
def npWhere (e : Edg) (orig : Img) : Option Img :=
  if compatDim e.h orig.h && compatDim e.w orig.w then
    let H := max e.h orig.h
    let W := max e.w orig.w
    some ⟨H, W, mkGrid H W (fun i j =>
      if e.px (bIdx e.h i) (bIdx e.w j) > 0 then pix8 (255, 255, 255)
      else pix8 (orig.px (bIdx orig.h i) (bIdx orig.w j)))⟩
  else none

/-- Observable effects of one run, in order of occurrence. -/
inductive Ev where
  | dirCreated : Ev
  | sinkOpened : String → Nat → Nat → Nat → Ev
  | skipLogged : Nat → Ev
  | wrote : Nat → Img → Ev
  | progress : Nat → Ev
  | released : Ev
deriving DecidableEq, Repr

/-- How a run ends. -/
inductive RunResult where
  | emptyInput : RunResult
  | firstFrameUnreadable : RunResult
  | completed : RunResult
  | alignmentFault : Nat → RunResult
  | broadcastFault : Nat → RunResult
deriving DecidableEq, Repr

/-- The body of the `for i in range(len(segmented_frames))` loop of
lines 93-115, one call per remaining index.  At each index the frame and
the mask are decoded; a failed decode of either logs and skips
(`continue`, line 101); otherwise Canny, the overlay and
`video_writer.write` run, followed by the progress callback when one was
supplied.  Indexing `masks[i]` out of range raises (`alignmentFault`),
an incompatible broadcast raises (`broadcastFault`); both leave the loop
without reaching `video_writer.release()`. -/
def streamLoop (frames masks : List String) (imread : String → Option Img)
    (canny : Img → Edg) (cb : Bool) : List Nat → List Ev × RunResult
  | [] => ([Ev.released], RunResult.completed)
  | i :: rest =>
    if i < masks.length then
      match imread (frames.getD i ""), imread (masks.getD i "") with
      | some o, some m =>
        match npWhere (canny m) o with
        | some out =>
          let r := streamLoop frames masks imread canny cb rest
          ((Ev.wrote i out :: if cb then [Ev.progress (i + 1)] else []) ++ r.1, r.2)
        | none => ([], RunResult.broadcastFault i)
      | _, _ =>
        let r := streamLoop frames masks imread canny cb rest
        (Ev.skipLogged i :: r.1, r.2)
    else ([], RunResult.alignmentFault i)

/-- POSIX `os.path.join`. -/
def pathJoin (a b : String) : String := a ++ "/" ++ b

/-- The default output directory used when `output_dir` is `None`
(line 59). -/
def defaultDir : String := pathJoin "Videos" "Contoured Videos"

/-- Embedding of `ContouredVideoProduction` (lines 29-120).  Arguments
mirror the Python signature; `dirExists` is the state of the output
directory probed by `os.path.exists`, `cb` tells whether a
`progress_callback` was supplied.  Returns the event trace and the way
the run ended. -/
def ContouredVideoProduction (name : String) (frames masks : List String)
    (fps : Nat) (outputDir : Option String) (cb : Bool)
    (imread : String → Option Img) (canny : Img → Edg) (dirExists : Bool) :
    List Ev × RunResult :=
  let dir := outputDir.getD defaultDir
  let pre : List Ev := if dirExists then [] else [Ev.dirCreated]
  let path := pathJoin dir ("Contoured_" ++ name ++ ".mp4")
  if frames.isEmpty then (pre, RunResult.emptyInput)
  else
    match imread (frames.getD 0 "") with
    | none => (pre, RunResult.firstFrameUnreadable)
    | some f0 =>
      let r := streamLoop frames masks imread canny cb (List.range frames.length)
      (pre ++ Ev.sinkOpened path fps f0.w f0.h :: r.1, r.2)

/-- Is an event a `write` call on the sink? -/
def isWrote : Ev → Bool
  | Ev.wrote _ _ => true
  | _ => false

/-- Index carried by a `write` event. -/
def writeIdx : Ev → Option Nat
  | Ev.wrote i _ => some i
  | _ => none

/-- Value carried by a progress-callback event. -/
def progressVal : Ev → Option Nat
  | Ev.progress n => some n
  | _ => none

/-- Number of frames handed to the sink during a run. -/
def writtenCount (evs : List Ev) : Nat := evs.countP isWrote

/-- Number of pairs skipped (one skip log line is printed per skipped
index, line 100). -/
def skippedCount (evs : List Ev) : Nat :=
  evs.countP (fun e => match e with | Ev.skipLogged _ => true | _ => false)

/-- Number of `release` calls on the sink. -/
def releasedCount (evs : List Ev) : Nat :=
  evs.countP (fun e => match e with | Ev.released => true | _ => false)

/-- Events contributed by index `i` of the loop when `i` is within the
mask list (write plus optional progress, or one skip log; empty in the
fault case). -/
def stepEvs (frames masks : List String) (imread : String → Option Img)
    (canny : Img → Edg) (cb : Bool) (i : Nat) : List Ev :=
  match imread (frames.getD i ""), imread (masks.getD i "") with
  | some o, some m =>
    match npWhere (canny m) o with
    | some out => Ev.wrote i out :: if cb then [Ev.progress (i + 1)] else []
    | none => []
  | _, _ => [Ev.skipLogged i]

/-- Index `i` neither raises nor faults: it is within the mask list and,
when both images decode, their shapes broadcast. -/
def okAt (frames masks : List String) (imread : String → Option Img)
    (canny : Img → Edg) (i : Nat) : Bool :=
  decide (i < masks.length) &&
  (match imread (frames.getD i ""), imread (masks.getD i "") with
   | some o, some m => (npWhere (canny m) o).isSome
   | _, _ => true)

/-- Index `i` decodes on both sides with the mask shaped exactly like its
frame, so a frame is written for it. -/
def goodWritePair (frames masks : List String) (imread : String → Option Img)
    (canny : Img → Edg) (i : Nat) : Bool :=
  decide (i < masks.length) &&
  (match imread (frames.getD i ""), imread (masks.getD i "") with
   | some o, some m => (npWhere (canny m) o).isSome
   | _, _ => false)

/-- Index `i` is a decode failure (frame or mask unreadable) while still
within the mask list. -/
def badDecodePair (frames masks : List String) (imread : String → Option Img)
    (i : Nat) : Bool :=
  decide (i < masks.length) &&
  (match imread (frames.getD i ""), imread (masks.getD i "") with
   | some _, some _ => false
   | _, _ => true)

/-- Index `i` decodes on both sides, the mask shaped exactly like its
frame, and the frame (hence the write) has the given dimensions. -/
def uniformAt (frames masks : List String) (imread : String → Option Img)
    (hh ww : Nat) (i : Nat) : Bool :=
  decide (i < masks.length) &&
  (match imread (frames.getD i ""), imread (masks.getD i "") with
   | some o, some m => o.h == hh && o.w == ww && m.h == o.h && m.w == o.w
   | _, _ => false)

/-! ### Concrete environments used to evaluate the model -/

/-- An edge model returning an all-zero (edge-free) map of the input's
shape, used to exercise the pipeline on concrete inputs. -/
def cannyZero : Img → Edg := fun im => ⟨im.h, im.w, im.data.map (fun _ => 0)⟩

/-- A 1×1 frame. -/
def img1A : Img := ⟨1, 1, [(1, 2, 3)]⟩

/-- A 2×2 frame. -/
def img2B : Img := ⟨2, 2, [(4, 5, 6), (4, 5, 6), (4, 5, 6), (4, 5, 6)]⟩

/-- A 1×1 mask. -/
def mask1A : Img := ⟨1, 1, [(0, 0, 0)]⟩

/-- A 2×2 mask. -/
def mask2B : Img := ⟨2, 2, [(0, 0, 0), (0, 0, 0), (0, 0, 0), (0, 0, 0)]⟩

/-- A decoder for a mixed-size scenario: frame 1 is 2×2 while frame 0
is 1×1, all locations readable. -/
def imreadMixed : String → Option Img := fun s =>
  if s = "f0" then some img1A
  else if s = "f1" then some img2B
  else if s = "m0" then some mask1A
  else if s = "m1" then some mask2B
  else none

/-- A decoder for the three-pair scenario in which only mask `b1` is
unreadable. -/
def imreadSkip : String → Option Img := fun s =>
  if s = "a0" then some img1A
  else if s = "a1" then some img1A
  else if s = "a2" then some img1A
  else if s = "b0" then some mask1A
  else if s = "b2" then some mask1A
  else none

/-- A decoder for scenarios with frames `a0`, `a1` and the single mask
`b0`, all readable, all 1×1. -/
def imreadShort : String → Option Img := fun s =>
  if s = "a0" then some img1A
  else if s = "a1" then some img1A
  else if s = "b0" then some mask1A
  else none

/-- A decoder for a two-pair scenario in which every image is 1×1. -/
def imreadUniform : String → Option Img := fun s =>
  if s = "u0" then some img1A
  else if s = "u1" then some ⟨1, 1, [(7, 8, 9)]⟩
  else if s = "v0" then some mask1A
  else if s = "v1" then some mask1A
  else none

/-! ### General list helpers -/

lemma countP_flatMap (p : Ev → Bool) (f : Nat → List Ev) :
    ∀ l : List Nat, (l.flatMap f).countP p = (l.map fun i => (f i).countP p).sum := by
  intro l
  induction l with
  | nil => simp
  | cons i rest ih => simp [List.flatMap_cons, List.countP_append, ih]

lemma filterMap_flatMap (g : Ev → Option Nat) (f : Nat → List Ev) :
    ∀ l : List Nat, (l.flatMap f).filterMap g = l.flatMap fun i => (f i).filterMap g := by
  intro l
  induction l with
  | nil => simp
  | cons i rest ih => simp [List.flatMap_cons, List.filterMap_append, ih]

lemma flatMap_congr {α β : Type} (l : List α) (f g : α → List β)
    (h : ∀ a ∈ l, f a = g a) : l.flatMap f = l.flatMap g := by
  induction l with
  | nil => rfl
  | cons a rest ih =>
    rw [List.flatMap_cons, List.flatMap_cons,
      h a (List.mem_cons_self a rest),
      ih (fun b hb => h b (List.mem_cons_of_mem _ hb))]

lemma flatMap_id_singleton {α : Type} (l : List α) :
    (l.flatMap fun a => [a]) = l := by
  induction l with
  | nil => rfl
  | cons a rest ih => rw [List.flatMap_cons, ih]; rfl

lemma sum_map_ite_zero :
    ∀ N k : Nat, k < N →
      (((List.range N).map (fun i => if i = k then 0 else 1)).sum) = N - 1 := by
  intro N
  induction N with
  | zero => intro k hk; exact absurd hk (Nat.not_lt_zero k)
  | succ n ih =>
    intro k hk
    rw [List.range_succ, List.map_append, List.sum_append]
    by_cases hkn : k = n
    · subst hkn
      have hcongr : (List.range k).map (fun i => if i = k then 0 else 1)
          = (List.range k).map (fun _ => 1) := by
        apply List.map_congr_left
        intro a ha
        have : a < k := List.mem_range.mp ha
        simp [Nat.ne_of_lt this]
      rw [hcongr]
      simp [List.map_const', List.sum_replicate]
    · have hk' : k < n := by omega
      have hnk : n ≠ k := fun h => hkn h.symm
      rw [ih k hk']
      simp [hnk]
      omega

lemma sum_map_ite_one :
    ∀ N k : Nat, k < N →
      (((List.range N).map (fun i => if i = k then 1 else 0)).sum) = 1 := by
  intro N
  induction N with
  | zero => intro k hk; exact absurd hk (Nat.not_lt_zero k)
  | succ n ih =>
    intro k hk
    rw [List.range_succ, List.map_append, List.sum_append]
    by_cases hkn : k = n
    · subst hkn
      have hcongr : (List.range k).map (fun i => if i = k then 1 else 0)
          = (List.range k).map (fun _ => 0) := by
        apply List.map_congr_left
        intro a ha
        have : a < k := List.mem_range.mp ha
        simp [Nat.ne_of_lt this]
      rw [hcongr]
      simp [List.map_const', List.sum_replicate]
    · have hk' : k < n := by omega
      have hnk : n ≠ k := fun h => hkn h.symm
      rw [ih k hk']
      simp [hnk]

lemma flatten_getD_uniform {α : Type} (d : α) (W : Nat) :
    ∀ (rows : List (List α)) (i j : Nat), (∀ r ∈ rows, r.length = W) →
      i < rows.length → j < W →
      rows.flatten.getD (i * W + j) d = (rows.getD i []).getD j d := by
  intro rows
  induction rows with
  | nil => intro i j _ hi _; exact absurd hi (Nat.not_lt_zero i)
  | cons r rest ih =>
    intro i j hlen hi hj
    have hr : r.length = W := hlen r (List.mem_cons_self r rest)
    cases i with
    | zero =>
      rw [List.flatten_cons]
      have hjr : 0 * W + j < r.length := by omega
      rw [List.getD_append _ _ _ _ hjr]
      simp
    | succ i' =>
      rw [List.flatten_cons]
      have hge : r.length ≤ (i' + 1) * W + j := by
        have : W ≤ (i' + 1) * W := Nat.le_mul_of_pos_left W (Nat.succ_pos i')
        omega
      rw [List.getD_append_right _ _ _ _ hge]
      have hidx : (i' + 1) * W + j - r.length = i' * W + j := by
        rw [hr]; ring_nf; omega
      rw [hidx]
      exact ih i' j (fun r' hr' => hlen r' (List.mem_cons_of_mem _ hr'))
        (Nat.lt_of_succ_lt_succ hi) hj

/-! ### Properties of the compositing step -/

lemma bIdx_lt_eq {n i : Nat} (h : i < n) : bIdx n i = i := by
  unfold bIdx
  split
  · omega
  · rfl

lemma getD_map_range {α : Type} (f : Nat → α) (d : α) {H i : Nat} (hi : i < H) :
    ((List.range H).map f).getD i d = f i := by
  rw [List.getD_eq_getElem?_getD, List.getElem?_map, List.getElem?_range hi]
  rfl

lemma mkGrid_px (H W : Nat) (g : Nat → Nat → Nat × Nat × Nat) (i j : Nat)
    (hi : i < H) (hj : j < W) :
    (mkGrid H W g).getD (i * W + j) (0, 0, 0) = g i j := by
  unfold mkGrid
  have hrows : ∀ r ∈ (List.range H).map (fun i => (List.range W).map (g i)),
      r.length = W := by
    intro r hr
    obtain ⟨a, _, rfl⟩ := List.mem_map.mp hr
    simp
  have hlen : i < ((List.range H).map (fun i => (List.range W).map (g i))).length := by
    simpa using hi
  rw [flatten_getD_uniform (0, 0, 0) W _ i j hrows hlen hj]
  rw [getD_map_range _ _ hi, getD_map_range _ _ hj]

lemma npWhere_some_of_dims {e : Edg} {o : Img} (he : e.h = o.h) (hw : e.w = o.w) :
    npWhere e o = some ⟨o.h, o.w, mkGrid o.h o.w (fun i j =>
      if e.px (bIdx e.h i) (bIdx e.w j) > 0 then pix8 (255, 255, 255)
      else pix8 (o.px (bIdx o.h i) (bIdx o.w j)))⟩ := by
  unfold npWhere
  have hc : (compatDim e.h o.h && compatDim e.w o.w) = true := by
    simp [compatDim, he, hw]
  rw [if_pos hc]
  simp [he, hw]

lemma npWhere_dims {e : Edg} {o : Img} {out : Img} (h : npWhere e o = some out) :
    out.h = max e.h o.h ∧ out.w = max e.w o.w := by
  unfold npWhere at h
  split at h
  · injection h with h'
    subst h'
    exact ⟨rfl, rfl⟩
  · exact absurd h (by simp)

lemma pix8_id {o : Img} (hwf : ∀ p ∈ o.data, p.1 < 256 ∧ p.2.1 < 256 ∧ p.2.2 < 256)
    (i j : Nat) : pix8 (o.px i j) = o.px i j := by
  unfold Img.px
  by_cases hlt : i * o.w + j < o.data.length
  · rw [List.getD_eq_getElem _ _ hlt]
    have hmem : o.data[i * o.w + j] ∈ o.data := List.getElem_mem hlt
    obtain ⟨h1, h2, h3⟩ := hwf _ hmem
    unfold pix8
    simp [Nat.mod_eq_of_lt h1, Nat.mod_eq_of_lt h2, Nat.mod_eq_of_lt h3]
  · rw [List.getD_eq_default _ _ (Nat.le_of_not_lt hlt)]
    rfl

lemma npWhere_px {e : Edg} {o : Img} (he : e.h = o.h) (hw : e.w = o.w)
    (hwf : ∀ p ∈ o.data, p.1 < 256 ∧ p.2.1 < 256 ∧ p.2.2 < 256)
    {i j : Nat} (hi : i < o.h) (hj : j < o.w) :
    ((npWhere e o).getD ⟨0, 0, []⟩).px i j =
      if 0 < e.px i j then (255, 255, 255) else o.px i j := by
  rw [npWhere_some_of_dims he hw]
  show (mkGrid o.h o.w _).getD (i * o.w + j) (0, 0, 0) = _
  rw [mkGrid_px o.h o.w _ i j hi hj]
  rw [he, hw] at *
  rw [bIdx_lt_eq hi, bIdx_lt_eq hj]
  by_cases hP : 0 < e.px i j
  · simp [hP, pix8]
  · simp [hP, pix8_id hwf]

/-! ### Behaviour of the streaming loop -/

section LoopLemmas

variable (frames masks : List String) (imread : String → Option Img)
variable (canny : Img → Edg) (cb : Bool)

lemma stepEvs_skip (i : Nat)
    (h : imread (frames.getD i "") = none ∨ imread (masks.getD i "") = none) :
    stepEvs frames masks imread canny cb i = [Ev.skipLogged i] := by
  unfold stepEvs
  cases hf : imread (frames.getD i "") with
  | none => cases hm : imread (masks.getD i "") <;> rfl
  | some o =>
    cases hm : imread (masks.getD i "") with
    | none => rfl
    | some m =>
      rcases h with h | h
      · rw [hf] at h; exact absurd h (by simp)
      · rw [hm] at h; exact absurd h (by simp)

lemma stepEvs_wrote {i : Nat} {o m out : Img}
    (hf : imread (frames.getD i "") = some o)
    (hm : imread (masks.getD i "") = some m)
    (hw : npWhere (canny m) o = some out) :
    stepEvs frames masks imread canny cb i =
      Ev.wrote i out :: (if cb then [Ev.progress (i + 1)] else []) := by
  have hred : stepEvs frames masks imread canny cb i =
      match npWhere (canny m) o with
      | some out => Ev.wrote i out :: (if cb then [Ev.progress (i + 1)] else [])
      | none => [] := by
    unfold stepEvs
    rw [hf, hm]
  rw [hred, hw]

lemma streamLoop_ok :
    ∀ l : List Nat, (∀ i ∈ l, okAt frames masks imread canny i = true) →
      streamLoop frames masks imread canny cb l =
        (l.flatMap (stepEvs frames masks imread canny cb) ++ [Ev.released],
         RunResult.completed) := by
  intro l
  induction l with
  | nil => intro _; simp [streamLoop]
  | cons i rest ih =>
    intro h
    have hi := h i (List.mem_cons_self i rest)
    have hrest := ih (fun j hj => h j (List.mem_cons_of_mem _ hj))
    unfold okAt at hi
    rw [Bool.and_eq_true] at hi
    obtain ⟨him, hmat⟩ := hi
    have hlt : i < masks.length := by simpa using him
    rw [streamLoop, if_pos hlt, List.flatMap_cons]
    cases hf : imread (frames.getD i "") with
    | none =>
      rw [stepEvs_skip frames masks imread canny cb i (Or.inl hf)]
      cases hm : imread (masks.getD i "") <;> simp [hrest]
    | some o =>
      cases hm : imread (masks.getD i "") with
      | none =>
        rw [stepEvs_skip frames masks imread canny cb i (Or.inr hm)]
        simp [hrest]
      | some m =>
        rw [hf, hm] at hmat
        simp only [] at hmat
        obtain ⟨out, hw⟩ := Option.isSome_iff_exists.mp hmat
        rw [stepEvs_wrote frames masks imread canny cb hf hm hw]
        simp [hw, hrest]

lemma streamLoop_align :
    ∀ (l1 : List Nat) (k : Nat) (l2 : List Nat),
      (∀ i ∈ l1, okAt frames masks imread canny i = true) →
      masks.length ≤ k →
      streamLoop frames masks imread canny cb (l1 ++ k :: l2) =
        (l1.flatMap (stepEvs frames masks imread canny cb),
         RunResult.alignmentFault k) := by
  intro l1
  induction l1 with
  | nil =>
    intro k l2 _ hk
    rw [List.nil_append, streamLoop, if_neg (by omega)]
    simp
  | cons i rest ih =>
    intro k l2 h hk
    have hi := h i (List.mem_cons_self i rest)
    have hrest := ih k l2 (fun j hj => h j (List.mem_cons_of_mem _ hj)) hk
    unfold okAt at hi
    rw [Bool.and_eq_true] at hi
    obtain ⟨him, hmat⟩ := hi
    have hlt : i < masks.length := by simpa using him
    rw [List.cons_append, streamLoop, if_pos hlt, List.flatMap_cons]
    cases hf : imread (frames.getD i "") with
    | none =>
      rw [stepEvs_skip frames masks imread canny cb i (Or.inl hf)]
      cases hm : imread (masks.getD i "") <;> simp [hrest]
    | some o =>
      cases hm : imread (masks.getD i "") with
      | none =>
        rw [stepEvs_skip frames masks imread canny cb i (Or.inr hm)]
        simp [hrest]
      | some m =>
        rw [hf, hm] at hmat
        simp only [] at hmat
        obtain ⟨out, hw⟩ := Option.isSome_iff_exists.mp hmat
        rw [stepEvs_wrote frames masks imread canny cb hf hm hw]
        simp [hw, hrest]

lemma streamLoop_released :
    ∀ l : List Nat,
      releasedCount (streamLoop frames masks imread canny cb l).1 =
        if (streamLoop frames masks imread canny cb l).2 = RunResult.completed
        then 1 else 0 := by
  intro l
  induction l with
  | nil => simp [streamLoop, releasedCount]
  | cons i rest ih =>
    rw [streamLoop]
    by_cases hlt : i < masks.length
    · rw [if_pos hlt]
      cases hf : imread (frames.getD i "") with
      | none => simpa [releasedCount, List.countP_cons] using ih
      | some o =>
        cases hm : imread (masks.getD i "") with
        | none => simpa [releasedCount, List.countP_cons] using ih
        | some m =>
          rcases Option.eq_none_or_eq_some (npWhere (canny m) o) with hw | ⟨out, hw⟩
          · simp [hw, releasedCount]
          · cases cb <;>
              simpa [hw, releasedCount, List.countP_cons, List.countP_append] using ih
    · rw [if_neg hlt]
      simp [releasedCount]

lemma streamLoop_progress :
    ∀ l : List Nat,
      (streamLoop frames masks imread canny true l).1.filterMap progressVal =
        ((streamLoop frames masks imread canny true l).1.filterMap writeIdx).map
          (fun n => n + 1) := by
  intro l
  induction l with
  | nil => simp [streamLoop, progressVal, writeIdx]
  | cons i rest ih =>
    rw [streamLoop]
    by_cases hlt : i < masks.length
    · rw [if_pos hlt]
      cases hf : imread (frames.getD i "") with
      | none => simpa [progressVal, writeIdx] using ih
      | some o =>
        cases hm : imread (masks.getD i "") with
        | none => simpa [progressVal, writeIdx] using ih
        | some m =>
          rcases Option.eq_none_or_eq_some (npWhere (canny m) o) with hw | ⟨out, hw⟩
          · simp [hw, progressVal, writeIdx]
          · simpa [hw, progressVal, writeIdx] using ih
    · rw [if_neg hlt]
      simp [progressVal, writeIdx]

lemma goodWritePair_step {i : Nat}
    (h : goodWritePair frames masks imread canny i = true) :
    ∃ o m out, imread (frames.getD i "") = some o ∧
      imread (masks.getD i "") = some m ∧ npWhere (canny m) o = some out ∧
      stepEvs frames masks imread canny cb i =
        Ev.wrote i out :: (if cb then [Ev.progress (i + 1)] else []) := by
  unfold goodWritePair at h
  rw [Bool.and_eq_true] at h
  obtain ⟨_, hmat⟩ := h
  rcases Option.eq_none_or_eq_some (imread (frames.getD i "")) with hf | ⟨o, hf⟩
  · rcases Option.eq_none_or_eq_some (imread (masks.getD i "")) with hm | ⟨m, hm⟩ <;>
      rw [hf, hm] at hmat <;> simp at hmat
  · rcases Option.eq_none_or_eq_some (imread (masks.getD i "")) with hm | ⟨m, hm⟩
    · rw [hf, hm] at hmat; simp at hmat
    · rw [hf, hm] at hmat
      simp only [] at hmat
      obtain ⟨out, hw⟩ := Option.isSome_iff_exists.mp hmat
      exact ⟨o, m, out, hf, hm, hw,
        stepEvs_wrote frames masks imread canny cb hf hm hw⟩

lemma badDecodePair_step {i : Nat}
    (h : badDecodePair frames masks imread i = true) :
    stepEvs frames masks imread canny cb i = [Ev.skipLogged i] := by
  unfold badDecodePair at h
  rw [Bool.and_eq_true] at h
  obtain ⟨_, hmat⟩ := h
  apply stepEvs_skip
  rcases Option.eq_none_or_eq_some (imread (frames.getD i "")) with hf | ⟨o, hf⟩
  · exact Or.inl hf
  · rcases Option.eq_none_or_eq_some (imread (masks.getD i "")) with hm | ⟨m, hm⟩
    · exact Or.inr hm
    · rw [hf, hm] at hmat; simp at hmat

lemma goodWritePair_ok {i : Nat}
    (h : goodWritePair frames masks imread canny i = true) :
    okAt frames masks imread canny i = true := by
  unfold goodWritePair at h
  unfold okAt
  rw [Bool.and_eq_true] at h ⊢
  refine ⟨h.1, ?_⟩
  have hmat := h.2
  rcases Option.eq_none_or_eq_some (imread (frames.getD i "")) with hf | ⟨o, hf⟩
  · rcases Option.eq_none_or_eq_some (imread (masks.getD i "")) with hm | ⟨m, hm⟩ <;>
      rw [hf, hm] at hmat <;> simp at hmat
  · rcases Option.eq_none_or_eq_some (imread (masks.getD i "")) with hm | ⟨m, hm⟩
    · rw [hf, hm] at hmat; simp at hmat
    · rw [hf, hm] at hmat ⊢; exact hmat

lemma badDecodePair_ok {i : Nat}
    (h : badDecodePair frames masks imread i = true) :
    okAt frames masks imread canny i = true := by
  unfold badDecodePair at h
  unfold okAt
  rw [Bool.and_eq_true] at h ⊢
  refine ⟨h.1, ?_⟩
  have hmat := h.2
  rcases Option.eq_none_or_eq_some (imread (frames.getD i "")) with hf | ⟨o, hf⟩
  · rcases Option.eq_none_or_eq_some (imread (masks.getD i "")) with hm | ⟨m, hm⟩ <;>
      rw [hf, hm]
  · rcases Option.eq_none_or_eq_some (imread (masks.getD i "")) with hm | ⟨m, hm⟩
    · rw [hf, hm]
    · rw [hf, hm] at hmat; simp at hmat

lemma wrote_mem_stepEvs {i j : Nat} {im : Img}
    (h : Ev.wrote i im ∈ stepEvs frames masks imread canny cb j) : i = j := by
  unfold stepEvs at h
  rcases Option.eq_none_or_eq_some (imread (frames.getD j "")) with hf | ⟨o, hf⟩
  · rcases Option.eq_none_or_eq_some (imread (masks.getD j "")) with hm | ⟨m, hm⟩ <;>
      rw [hf, hm] at h <;> simp at h
  · rcases Option.eq_none_or_eq_some (imread (masks.getD j "")) with hm | ⟨m, hm⟩
    · rw [hf, hm] at h; simp at h
    · rw [hf, hm] at h
      simp only [] at h
      rcases Option.eq_none_or_eq_some (npWhere (canny m) o) with hw | ⟨out, hw⟩
      · rw [hw] at h; simp at h
      · rw [hw] at h
        rcases List.mem_cons.mp h with heq | hmem
        · simp only [Ev.wrote.injEq] at heq
          exact heq.1
        · cases cb with
          | true => simp at hmem
          | false => simp at hmem

lemma stepEvs_countP_wrote_good {i : Nat}
    (h : goodWritePair frames masks imread canny i = true) :
    (stepEvs frames masks imread canny cb i).countP isWrote = 1 := by
  obtain ⟨o, m, out, _, _, _, hstep⟩ := goodWritePair_step frames masks imread canny cb h
  rw [hstep]
  cases cb <;> simp [List.countP_cons, isWrote]

lemma stepEvs_countP_wrote_bad {i : Nat}
    (h : badDecodePair frames masks imread i = true) :
    (stepEvs frames masks imread canny cb i).countP isWrote = 0 := by
  rw [badDecodePair_step frames masks imread canny cb h]
  simp [List.countP_cons, isWrote]

lemma stepEvs_countP_skip_good {i : Nat}
    (h : goodWritePair frames masks imread canny i = true) :
    (stepEvs frames masks imread canny cb i).countP
      (fun e => match e with | Ev.skipLogged _ => true | _ => false) = 0 := by
  obtain ⟨o, m, out, _, _, _, hstep⟩ := goodWritePair_step frames masks imread canny cb h
  rw [hstep]
  cases cb <;> simp [List.countP_cons]

lemma stepEvs_countP_skip_bad {i : Nat}
    (h : badDecodePair frames masks imread i = true) :
    (stepEvs frames masks imread canny cb i).countP
      (fun e => match e with | Ev.skipLogged _ => true | _ => false) = 1 := by
  rw [badDecodePair_step frames masks imread canny cb h]
  simp [List.countP_cons]

lemma stepEvs_filterMap_writeIdx_good {i : Nat}
    (h : goodWritePair frames masks imread canny i = true) :
    (stepEvs frames masks imread canny cb i).filterMap writeIdx = [i] := by
  obtain ⟨o, m, out, _, _, _, hstep⟩ := goodWritePair_step frames masks imread canny cb h
  rw [hstep]
  cases cb <;> simp [writeIdx]

lemma goodWritePair_frame_some {i : Nat}
    (h : goodWritePair frames masks imread canny i = true) :
    ∃ o, imread (frames.getD i "") = some o := by
  obtain ⟨o, m, out, hf, _, _, _⟩ :=
    goodWritePair_step frames masks imread canny true h
  exact ⟨o, hf⟩

lemma wrote_mem_stepEvs_good {j i : Nat} {im : Img}
    (hg : goodWritePair frames masks imread canny j = true)
    (h : Ev.wrote i im ∈ stepEvs frames masks imread canny cb j) :
    ∃ o m, imread (frames.getD j "") = some o ∧
      imread (masks.getD j "") = some m ∧
      npWhere (canny m) o = some im ∧ i = j := by
  obtain ⟨o, m, out, hf, hm, hw, hstep⟩ :=
    goodWritePair_step frames masks imread canny cb hg
  rw [hstep] at h
  rcases List.mem_cons.mp h with heq | hmem
  · simp only [Ev.wrote.injEq] at heq
    refine ⟨o, m, hf, hm, ?_, heq.1⟩
    rw [heq.2]
    exact hw
  · cases cb with
    | true => simp at hmem
    | false => simp at hmem

lemma uniformAt_spec {hh ww i : Nat}
    (hc : ∀ im, (canny im).h = im.h ∧ (canny im).w = im.w)
    (h : uniformAt frames masks imread hh ww i = true) :
    goodWritePair frames masks imread canny i = true ∧
    ∀ out, (∃ o m, imread (frames.getD i "") = some o ∧
        imread (masks.getD i "") = some m ∧ npWhere (canny m) o = some out) →
      out.h = hh ∧ out.w = ww := by
  unfold uniformAt at h
  rw [Bool.and_eq_true] at h
  obtain ⟨hlen, hmat⟩ := h
  rcases Option.eq_none_or_eq_some (imread (frames.getD i "")) with hf | ⟨o, hf⟩
  · rcases Option.eq_none_or_eq_some (imread (masks.getD i "")) with hm | ⟨m, hm⟩ <;>
      rw [hf, hm] at hmat <;> simp at hmat
  · rcases Option.eq_none_or_eq_some (imread (masks.getD i "")) with hm | ⟨m, hm⟩
    · rw [hf, hm] at hmat; simp at hmat
    · rw [hf, hm] at hmat
      simp only [] at hmat
      simp only [Bool.and_eq_true, beq_iff_eq] at hmat
      obtain ⟨⟨⟨ho_h, ho_w⟩, hm_h⟩, hm_w⟩ := hmat
      have he_h : (canny m).h = o.h := (hc m).1.trans hm_h
      have he_w : (canny m).w = o.w := (hc m).2.trans hm_w
      have hsome := npWhere_some_of_dims he_h he_w
      constructor
      · unfold goodWritePair
        rw [Bool.and_eq_true]
        refine ⟨hlen, ?_⟩
        rw [hf, hm]
        simp only []
        rw [hsome]
        rfl
      · rintro out ⟨o', m', hf', hm', hw'⟩
        rw [hf] at hf'
        rw [hm] at hm'
        injection hf' with hf'
        injection hm' with hm'
        subst hf'
        subst hm'
        obtain ⟨hh', hw''⟩ := npWhere_dims hw'
        constructor
        · rw [hh', he_h, ho_h, max_self]
        · rw [hw'', he_w, ho_w, max_self]

end LoopLemmas

/-! ### Run-level characterisations -/

section RunLemmas

variable (name : String) (frames masks : List String) (fps : Nat)
variable (outputDir : Option String) (cb : Bool)
variable (imread : String → Option Img) (canny : Img → Edg) (dirExists : Bool)

/-- Trace of a run in which the first frame decodes and no index raises:
directory handling, one sink opening with the first frame's geometry,
the per-index events of the loop, and one release. -/
lemma run_ok {f0 : Img} (hne : frames ≠ [])
    (hf0 : imread (frames.getD 0 "") = some f0)
    (hok : ∀ i < frames.length, okAt frames masks imread canny i = true) :
    ContouredVideoProduction name frames masks fps outputDir cb imread canny dirExists =
      ((if dirExists then [] else [Ev.dirCreated]) ++
        Ev.sinkOpened (pathJoin (outputDir.getD defaultDir)
            ("Contoured_" ++ name ++ ".mp4")) fps f0.w f0.h ::
          ((List.range frames.length).flatMap
              (stepEvs frames masks imread canny cb) ++ [Ev.released]),
       RunResult.completed) := by
  unfold ContouredVideoProduction
  rw [if_neg (by simp [List.isEmpty_iff, hne])]
  rw [hf0]
  simp only []
  rw [streamLoop_ok frames masks imread canny cb (List.range frames.length)
    (fun i hi => hok i (List.mem_range.mp hi))]

/-- Trace of a run in which the first frame decodes, all indices below
the mask-list length are fine, but the frame list is longer: the loop
raises at index `masks.length` and the sink is never released. -/
lemma run_align {f0 : Img} (hshort : masks.length < frames.length)
    (hf0 : imread (frames.getD 0 "") = some f0)
    (hok : ∀ i < masks.length, okAt frames masks imread canny i = true) :
    ContouredVideoProduction name frames masks fps outputDir cb imread canny dirExists =
      ((if dirExists then [] else [Ev.dirCreated]) ++
        Ev.sinkOpened (pathJoin (outputDir.getD defaultDir)
            ("Contoured_" ++ name ++ ".mp4")) fps f0.w f0.h ::
          (List.range masks.length).flatMap (stepEvs frames masks imread canny cb),
       RunResult.alignmentFault masks.length) := by
  unfold ContouredVideoProduction
  have hne : ¬frames.isEmpty = true := by
    simp [List.isEmpty_iff]
    intro h
    rw [h] at hshort
    simp at hshort
  rw [if_neg hne]
  rw [hf0]
  simp only []
  obtain ⟨s, hs⟩ : ∃ s, frames.length - masks.length = s + 1 :=
    ⟨frames.length - masks.length - 1, by omega⟩
  have hsplit : List.range frames.length =
      List.range masks.length ++ (masks.length + 0) ::
        List.map (fun x => masks.length + Nat.succ x) (List.range s) := by
    have h1 : frames.length = masks.length + (s + 1) := by omega
    rw [h1, List.range_add, List.range_succ_eq_map]
    simp
  rw [hsplit,
    streamLoop_align frames masks imread canny cb (List.range masks.length)
      (masks.length + 0) _ (fun i hi => hok i (List.mem_range.mp hi)) (by omega)]
  simp

/-- The loop only consults masks at indices below the frame count, so a
longer mask list behaves as its first `frames.length` entries. -/
lemma streamLoop_take (hNm : frames.length ≤ masks.length) :
    ∀ l : List Nat, (∀ i ∈ l, i < frames.length) →
      streamLoop frames masks imread canny cb l =
        streamLoop frames (masks.take frames.length) imread canny cb l := by
  intro l
  induction l with
  | nil => intro _; rfl
  | cons i rest ih =>
    intro h
    have hi : i < frames.length := h i (List.mem_cons_self i rest)
    have hrest := ih (fun j hj => h j (List.mem_cons_of_mem _ hj))
    rw [streamLoop, streamLoop]
    have hlen : (masks.take frames.length).length = frames.length := by
      rw [List.length_take]
      omega
    have hlt1 : i < masks.length := lt_of_lt_of_le hi hNm
    have hlt2 : i < (masks.take frames.length).length := by rw [hlen]; exact hi
    rw [if_pos hlt1, if_pos hlt2]
    have hgd : (masks.take frames.length).getD i "" = masks.getD i "" := by
      rw [List.getD_eq_getElem?_getD, List.getD_eq_getElem?_getD,
        List.getElem?_take, if_pos hi]
    rw [hgd, hrest]

/-- Surplus mask locations never influence a run. -/
lemma run_take (hlen : frames.length < masks.length) :
    ContouredVideoProduction name frames masks fps outputDir cb imread canny dirExists =
      ContouredVideoProduction name frames (masks.take frames.length) fps outputDir cb
        imread canny dirExists := by
  unfold ContouredVideoProduction
  by_cases he : frames.isEmpty
  · rw [if_pos he, if_pos he]
  · rw [if_neg he, if_neg he]
    rcases Option.eq_none_or_eq_some (imread (frames.getD 0 "")) with hf | ⟨f0, hf⟩ <;>
      rw [hf]
    simp only []
    rw [streamLoop_take frames masks cb imread canny (le_of_lt hlen)
      (List.range frames.length) (fun i hi => List.mem_range.mp hi)]

/-- In a run whose pairs all decode with matching shapes, the sequence
of indices handed to the sink's write is exactly `0, …, N-1`. -/
lemma run_writeIdx {f0 : Img} (hne : frames ≠ [])
    (hf0 : imread (frames.getD 0 "") = some f0)
    (hgood : ∀ i < frames.length, goodWritePair frames masks imread canny i = true) :
    (ContouredVideoProduction name frames masks fps outputDir cb imread canny
        dirExists).1.filterMap writeIdx = List.range frames.length := by
  have hok : ∀ i < frames.length, okAt frames masks imread canny i = true :=
    fun i hi => goodWritePair_ok frames masks imread canny (hgood i hi)
  rw [run_ok name frames masks fps outputDir cb imread canny dirExists hne hf0 hok]
  have hflat : ((List.range frames.length).flatMap
      (stepEvs frames masks imread canny cb)).filterMap writeIdx =
        List.range frames.length := by
    rw [filterMap_flatMap]
    rw [flatMap_congr (List.range frames.length) _ (fun i => [i])
      (fun i hi => stepEvs_filterMap_writeIdx_good frames masks imread canny cb
        (hgood i (List.mem_range.mp hi)))]
    exact flatMap_id_singleton _
  cases dirExists <;>
    simp [List.filterMap_append, writeIdx, hflat]

end RunLemmas

/-! ### Claims -/

/-- C7 (amended): a run on an empty frame list stops with the
empty-input abort; no sink is opened, no frame is written and no output
file is created — but the output directory has already been created at
that point when it was absent. -/
theorem C7_empty_input (name : String) (frames masks : List String) (fps : Nat)
    (outputDir : Option String) (cb : Bool) (imread : String → Option Img)
    (canny : Img → Edg) (dirExists : Bool) (hempty : frames = []) :
    ContouredVideoProduction name frames masks fps outputDir cb imread canny dirExists =
      ((if dirExists then [] else [Ev.dirCreated]), RunResult.emptyInput) := by
  subst hempty
  rfl

/-- C7 witness: a concrete empty-input run with the directory already
present stops with the empty-input abort and an empty trace. -/
theorem C7_empty_input_witness :
    ContouredVideoProduction "v" [] [] 30 none false (fun _ => none) cannyZero true =
      ([], RunResult.emptyInput) :=
  C7_empty_input "v" [] [] 30 none false (fun _ => none) cannyZero true rfl

/-- C7 counterexample: on an empty frame list with the output directory
absent, the run performs the directory-creation I/O side effect before
stopping, so it does not abort "before any I/O side effect". -/
theorem C7_counterexample :
    (ContouredVideoProduction "v" [] [] 30 none false (fun _ => none) cannyZero
        false).1 = [Ev.dirCreated] ∧
    ([Ev.dirCreated] : List Ev) ≠ [] ∧
    (ContouredVideoProduction "v" [] [] 30 none false (fun _ => none) cannyZero
        false).2 = RunResult.emptyInput := by
  decide

/-- C10: with `output_dir = None` the run uses the fixed default
directory `Videos/Contoured Videos`, creating it when absent, and opens
the sink on `Contoured_<name>.mp4` inside it. -/
theorem C10_default_output_dir (name : String) (frames masks : List String)
    (fps : Nat) (cb : Bool) (imread : String → Option Img) (canny : Img → Edg)
    (dirExists : Bool) (f0 : Img) (hne : frames ≠ [])
    (hf0 : imread (frames.getD 0 "") = some f0) :
    Ev.sinkOpened (pathJoin defaultDir ("Contoured_" ++ name ++ ".mp4")) fps f0.w f0.h ∈
      (ContouredVideoProduction name frames masks fps none cb imread canny dirExists).1 ∧
    (dirExists = false → Ev.dirCreated ∈
      (ContouredVideoProduction name frames masks fps none cb imread canny dirExists).1) := by
  unfold ContouredVideoProduction
  rw [if_neg (by simp [List.isEmpty_iff, hne])]
  rw [hf0]
  simp only []
  constructor
  · cases dirExists <;> simp [Option.getD]
  · intro hde
    rw [hde]
    simp

/-- C10 witness: a concrete run without an output directory opens the
sink inside the default directory and creates that directory. -/
theorem C10_default_output_dir_witness :
    Ev.sinkOpened (pathJoin defaultDir ("Contoured_" ++ "clip" ++ ".mp4")) 30
        img1A.w img1A.h ∈
      (ContouredVideoProduction "clip" ["a0"] ["b0"] 30 none false imreadShort
        cannyZero false).1 ∧
    Ev.dirCreated ∈
      (ContouredVideoProduction "clip" ["a0"] ["b0"] 30 none false imreadShort
        cannyZero false).1 := by
  have h := C10_default_output_dir "clip" ["a0"] ["b0"] 30 false imreadShort
    cannyZero false img1A (by decide) (by decide)
  exact ⟨h.1, h.2 rfl⟩

/-- C5 (amended): the sink's release is invoked exactly once when the
streaming loop runs to normal completion, and is not invoked when the
run ends any other way (in particular when the alignment fault is raised
mid-stream, since no cleanup handler protects the loop). -/
theorem C5_release_on_completion_only (name : String) (frames masks : List String)
    (fps : Nat) (outputDir : Option String) (cb : Bool)
    (imread : String → Option Img) (canny : Img → Edg) (dirExists : Bool) :
    releasedCount (ContouredVideoProduction name frames masks fps outputDir cb
        imread canny dirExists).1 =
      if (ContouredVideoProduction name frames masks fps outputDir cb imread canny
          dirExists).2 = RunResult.completed then 1 else 0 := by
  unfold ContouredVideoProduction
  by_cases he : frames.isEmpty
  · rw [if_pos he]
    cases dirExists <;> simp [releasedCount]
  · rw [if_neg he]
    rcases Option.eq_none_or_eq_some (imread (frames.getD 0 "")) with hf | ⟨f0, hf⟩ <;>
      rw [hf]
    · cases dirExists <;> simp [releasedCount]
    · simp only []
      have h := streamLoop_released frames masks imread canny cb
        (List.range frames.length)
      cases dirExists <;>
        simpa [releasedCount, List.countP_append, List.countP_cons] using h

/-- C5 counterexample: a run that aborts mid-stream on the alignment
fault (mask list shorter) never calls release on the sink it opened. -/
theorem C5_counterexample :
    (ContouredVideoProduction "v" ["a0", "a1"] ["b0"] 30 (some "d") false
        imreadShort cannyZero true).2 = RunResult.alignmentFault 1 ∧
    releasedCount (ContouredVideoProduction "v" ["a0", "a1"] ["b0"] 30 (some "d")
        false imreadShort cannyZero true).1 = 0 := by
  decide

/-- C3 (amended): the progress callback fires exactly once per frame
actually written, in index order, with value one plus the pair's 0-based
index; skipped pairs produce no invocation. -/
theorem C3_progress_only_on_write (name : String) (frames masks : List String)
    (fps : Nat) (outputDir : Option String) (imread : String → Option Img)
    (canny : Img → Edg) (dirExists : Bool) :
    (ContouredVideoProduction name frames masks fps outputDir true imread canny
        dirExists).1.filterMap progressVal =
      ((ContouredVideoProduction name frames masks fps outputDir true imread canny
          dirExists).1.filterMap writeIdx).map (fun n => n + 1) := by
  unfold ContouredVideoProduction
  by_cases he : frames.isEmpty
  · rw [if_pos he]
    cases dirExists <;> simp [progressVal, writeIdx]
  · rw [if_neg he]
    rcases Option.eq_none_or_eq_some (imread (frames.getD 0 "")) with hf | ⟨f0, hf⟩ <;>
      rw [hf]
    · cases dirExists <;> simp [progressVal, writeIdx]
    · simp only []
      have h := streamLoop_progress frames masks imread canny
        (List.range frames.length)
      cases dirExists <;>
        simpa [progressVal, writeIdx, List.filterMap_append] using h

/-- C3 counterexample: with three pairs and mask 1 unreadable, the
callback receives 1 then 3 — not the claimed 1, 2, 3 — because the
skipped pair triggers no invocation. -/
theorem C3_counterexample :
    ((ContouredVideoProduction "v" ["a0", "a1", "a2"] ["b0", "b1", "b2"] 30
        (some "d") true imreadSkip cannyZero true).1.filterMap progressVal) = [1, 3] ∧
    ([1, 3] : List Nat) ≠ [1, 2, 3] := by
  decide

/-- C4: when the mask list is strictly shorter than the frame list and
every pair below the mask count decodes, the run aborts with the
alignment fault exactly at the first index with no mask (the Python
IndexError on `masks[i]`, the abort the spec names `AlignmentError`),
and no frame at or beyond that index is handed to the sink. -/
theorem C4_alignment_abort (name : String) (frames masks : List String) (fps : Nat)
    (outputDir : Option String) (cb : Bool) (imread : String → Option Img)
    (canny : Img → Edg) (dirExists : Bool) (f0 : Img)
    (hshort : masks.length < frames.length)
    (hf0 : imread (frames.getD 0 "") = some f0)
    (hgood : ∀ i < masks.length, goodWritePair frames masks imread canny i = true) :
    (ContouredVideoProduction name frames masks fps outputDir cb imread canny
        dirExists).2 = RunResult.alignmentFault masks.length ∧
    ∀ i im, Ev.wrote i im ∈ (ContouredVideoProduction name frames masks fps
        outputDir cb imread canny dirExists).1 → i < masks.length := by
  have hok : ∀ i < masks.length, okAt frames masks imread canny i = true :=
    fun i hi => goodWritePair_ok frames masks imread canny (hgood i hi)
  rw [run_align name frames masks fps outputDir cb imread canny dirExists hshort
    hf0 hok]
  refine ⟨rfl, ?_⟩
  intro i im hmem
  rcases List.mem_append.mp hmem with hpre | hrest
  · cases dirExists <;> simp at hpre
  · rcases List.mem_cons.mp hrest with heq | hflat
    · exact absurd heq (by simp)
    · obtain ⟨j, hj, hmemj⟩ := List.mem_flatMap.mp hflat
      rw [wrote_mem_stepEvs frames masks imread canny cb hmemj]
      exact List.mem_range.mp hj

/-- C4 witness: a concrete run with two frames and one mask, the first
pair decodable, aborts with the alignment fault at index 1. -/
theorem C4_alignment_abort_witness :
    (ContouredVideoProduction "v" ["a0", "a1"] ["b0"] 30 (some "d") true
        imreadShort cannyZero true).2 = RunResult.alignmentFault 1 := by
  have h := C4_alignment_abort "v" ["a0", "a1"] ["b0"] 30 (some "d") true
    imreadShort cannyZero true img1A (by decide) (by decide) (by decide)
  exact h.1

/-- C2: a pair whose frame or mask fails to decode (the first frame
having decoded when the sink was opened) is not written, is logged as
skipped, and the loop continues; with N pairs of which exactly the one
at index k is undecodable and the rest decode cleanly, the run completes
with N - 1 frames written and 1 pair skipped. -/
theorem C2_skip_policy (name : String) (frames masks : List String) (fps : Nat)
    (outputDir : Option String) (cb : Bool) (imread : String → Option Img)
    (canny : Img → Edg) (dirExists : Bool) (f0 : Img) (k : Nat)
    (hf0 : imread (frames.getD 0 "") = some f0)
    (hk : k < frames.length)
    (hbad : badDecodePair frames masks imread k = true)
    (hgood : ∀ i < frames.length, i ≠ k →
      goodWritePair frames masks imread canny i = true) :
    (ContouredVideoProduction name frames masks fps outputDir cb imread canny
        dirExists).2 = RunResult.completed ∧
    (∀ im, Ev.wrote k im ∉ (ContouredVideoProduction name frames masks fps
        outputDir cb imread canny dirExists).1) ∧
    Ev.skipLogged k ∈ (ContouredVideoProduction name frames masks fps outputDir cb
        imread canny dirExists).1 ∧
    writtenCount (ContouredVideoProduction name frames masks fps outputDir cb
        imread canny dirExists).1 = frames.length - 1 ∧
    skippedCount (ContouredVideoProduction name frames masks fps outputDir cb
        imread canny dirExists).1 = 1 := by
  have hne : frames ≠ [] := by
    intro h
    rw [h] at hk
    simp at hk
  have hok : ∀ i < frames.length, okAt frames masks imread canny i = true := by
    intro i hi
    by_cases hik : i = k
    · subst hik
      exact badDecodePair_ok frames masks imread canny hbad
    · exact goodWritePair_ok frames masks imread canny (hgood i hi hik)
  rw [run_ok name frames masks fps outputDir cb imread canny dirExists hne hf0 hok]
  refine ⟨rfl, ?_, ?_, ?_, ?_⟩
  · intro im hmem
    rcases List.mem_append.mp hmem with hpre | hrest
    · cases dirExists <;> simp at hpre
    · rcases List.mem_cons.mp hrest with heq | hflat
      · exact absurd heq (by simp)
      · rcases List.mem_append.mp hflat with hflat' | hlast
        · obtain ⟨j, hj, hmemj⟩ := List.mem_flatMap.mp hflat'
          by_cases hjk : j = k
          · subst hjk
            rw [badDecodePair_step frames masks imread canny cb hbad] at hmemj
            simp at hmemj
          · have hkj := wrote_mem_stepEvs frames masks imread canny cb hmemj
            exact hjk hkj.symm
        · simp at hlast
  · refine List.mem_append.mpr (Or.inr (List.mem_cons.mpr (Or.inr
      (List.mem_append.mpr (Or.inl ?_)))))
    refine List.mem_flatMap.mpr ⟨k, List.mem_range.mpr hk, ?_⟩
    rw [badDecodePair_step frames masks imread canny cb hbad]
    simp
  · unfold writtenCount
    rw [List.countP_append, List.countP_cons, List.countP_append, countP_flatMap]
    have hmap : (List.range frames.length).map
        (fun i => (stepEvs frames masks imread canny cb i).countP isWrote) =
          (List.range frames.length).map (fun i => if i = k then 0 else 1) := by
      apply List.map_congr_left
      intro i hi
      by_cases hik : i = k
      · subst hik
        rw [stepEvs_countP_wrote_bad frames masks imread canny cb hbad]
        simp
      · rw [stepEvs_countP_wrote_good frames masks imread canny cb
          (hgood i (List.mem_range.mp hi) hik)]
        simp [hik]
    rw [hmap, sum_map_ite_zero frames.length k hk]
    have hpre0 : (if dirExists then ([] : List Ev) else [Ev.dirCreated]).countP
        isWrote = 0 := by
      cases dirExists <;> simp [isWrote]
    rw [hpre0]
    simp [isWrote]
  · unfold skippedCount
    rw [List.countP_append, List.countP_cons, List.countP_append, countP_flatMap]
    have hmap : (List.range frames.length).map
        (fun i => (stepEvs frames masks imread canny cb i).countP
          (fun e => match e with | Ev.skipLogged _ => true | _ => false)) =
          (List.range frames.length).map (fun i => if i = k then 1 else 0) := by
      apply List.map_congr_left
      intro i hi
      by_cases hik : i = k
      · subst hik
        rw [stepEvs_countP_skip_bad frames masks imread canny cb hbad]
        simp
      · rw [stepEvs_countP_skip_good frames masks imread canny cb
          (hgood i (List.mem_range.mp hi) hik)]
        simp [hik]
    rw [hmap, sum_map_ite_one frames.length k hk]
    have hpre0 : (if dirExists then ([] : List Ev) else [Ev.dirCreated]).countP
        (fun e => match e with | Ev.skipLogged _ => true | _ => false) = 0 := by
      cases dirExists <;> simp
    rw [hpre0]
    simp

/-- C2 witness: a concrete three-pair run whose middle mask is
unreadable completes with two frames written and one pair skipped. -/
theorem C2_skip_policy_witness :
    (ContouredVideoProduction "v" ["a0", "a1", "a2"] ["b0", "b1", "b2"] 30
        (some "d") true imreadSkip cannyZero true).2 = RunResult.completed ∧
    writtenCount (ContouredVideoProduction "v" ["a0", "a1", "a2"]
        ["b0", "b1", "b2"] 30 (some "d") true imreadSkip cannyZero true).1 = 3 - 1 ∧
    skippedCount (ContouredVideoProduction "v" ["a0", "a1", "a2"]
        ["b0", "b1", "b2"] 30 (some "d") true imreadSkip cannyZero true).1 = 1 := by
  have h := C2_skip_policy "v" ["a0", "a1", "a2"] ["b0", "b1", "b2"] 30 (some "d")
    true imreadSkip cannyZero true img1A 1 (by decide) (by decide) (by decide)
    (by decide)
  exact ⟨h.1, h.2.2.2.1, h.2.2.2.2⟩

/-- C1 (amended): on a non-empty frame list with a mask list at least
as long, where every pair decodes and every decoded frame and mask has
the first decoded frame's dimensions, the run completes having handed
exactly N frames to the sink, one per pair in index order, each with
the first frame's width and height. -/
theorem C1_full_run (name : String) (frames masks : List String) (fps : Nat)
    (outputDir : Option String) (cb : Bool) (imread : String → Option Img)
    (canny : Img → Edg) (dirExists : Bool) (f0 : Img)
    (hne : frames ≠ [])
    (hf0 : imread (frames.getD 0 "") = some f0)
    (hc : ∀ im, (canny im).h = im.h ∧ (canny im).w = im.w)
    (huni : ∀ i < frames.length,
      uniformAt frames masks imread f0.h f0.w i = true) :
    (ContouredVideoProduction name frames masks fps outputDir cb imread canny
        dirExists).2 = RunResult.completed ∧
    (ContouredVideoProduction name frames masks fps outputDir cb imread canny
        dirExists).1.filterMap writeIdx = List.range frames.length ∧
    ∀ i im, Ev.wrote i im ∈ (ContouredVideoProduction name frames masks fps
        outputDir cb imread canny dirExists).1 → im.h = f0.h ∧ im.w = f0.w := by
  have hgood : ∀ i < frames.length,
      goodWritePair frames masks imread canny i = true :=
    fun i hi => (uniformAt_spec frames masks imread canny hc (huni i hi)).1
  have hok : ∀ i < frames.length, okAt frames masks imread canny i = true :=
    fun i hi => goodWritePair_ok frames masks imread canny (hgood i hi)
  refine ⟨?_, ?_, ?_⟩
  · rw [run_ok name frames masks fps outputDir cb imread canny dirExists hne
      hf0 hok]
  · exact run_writeIdx name frames masks fps outputDir cb imread canny dirExists
      hne hf0 hgood
  · intro i im hmem
    rw [run_ok name frames masks fps outputDir cb imread canny dirExists hne
      hf0 hok] at hmem
    rcases List.mem_append.mp hmem with hpre | hrest
    · cases dirExists <;> simp at hpre
    · rcases List.mem_cons.mp hrest with heq | hflat
      · exact absurd heq (by simp)
      · rcases List.mem_append.mp hflat with hflat' | hlast
        · obtain ⟨j, hj, hmemj⟩ := List.mem_flatMap.mp hflat'
          have hjlt := List.mem_range.mp hj
          obtain ⟨o, m, hfj, hmj, hwj, _⟩ :=
            wrote_mem_stepEvs_good frames masks imread canny cb (hgood j hjlt)
              hmemj
          exact (uniformAt_spec frames masks imread canny hc (huni j hjlt)).2 im
            ⟨o, m, hfj, hmj, hwj⟩
        · simp at hlast

/-- C1 witness: a concrete two-pair run in which every image is 1×1
completes with write indices 0, 1. -/
theorem C1_full_run_witness :
    (ContouredVideoProduction "v" ["u0", "u1"] ["v0", "v1"] 30 none true
        imreadUniform cannyZero true).2 = RunResult.completed ∧
    (ContouredVideoProduction "v" ["u0", "u1"] ["v0", "v1"] 30 none true
        imreadUniform cannyZero true).1.filterMap writeIdx = List.range 2 := by
  have h := C1_full_run "v" ["u0", "u1"] ["v0", "v1"] 30 none true imreadUniform
    cannyZero true img1A (by decide) (by decide) (fun im => ⟨rfl, rfl⟩)
    (by decide)
  exact ⟨h.1, h.2.1⟩

/-- C1 counterexample: a two-pair run in which everything decodes but
the second frame is 2×2 while the first is 1×1: a frame without the
first frame's dimensions is handed to the sink, so the claim as stated
fails without a dimension-uniformity hypothesis. -/
theorem C1_counterexample :
    (∀ i < 2, goodWritePair ["f0", "f1"] ["m0", "m1"] imreadMixed cannyZero i
      = true) ∧
    imreadMixed "f0" = some img1A ∧
    Ev.wrote 1 img2B ∈ (ContouredVideoProduction "v" ["f0", "f1"] ["m0", "m1"]
        30 (some "out") true imreadMixed cannyZero true).1 ∧
    img2B.h ≠ img1A.h := by
  decide

/-- C8 (amended): no dimension check exists after the first frame: a
later pair whose decoded frame differs from the run's fixed size is
composited and handed to the sink's write at its own size, and the run
continues (completing normally when every index is fault-free) instead
of aborting with a dimension-mismatch error. -/
theorem C8_no_dimension_check (name : String) (frames masks : List String)
    (fps : Nat) (outputDir : Option String) (cb : Bool)
    (imread : String → Option Img) (canny : Img → Edg) (dirExists : Bool)
    (f0 oK mK : Img) (k : Nat)
    (hf0 : imread (frames.getD 0 "") = some f0)
    (hok : ∀ i < frames.length, okAt frames masks imread canny i = true)
    (hk : k < frames.length)
    (hko : imread (frames.getD k "") = some oK)
    (hkm : imread (masks.getD k "") = some mK)
    (hdim : mK.h = oK.h ∧ mK.w = oK.w)
    (hc : ∀ im, (canny im).h = im.h ∧ (canny im).w = im.w) :
    (ContouredVideoProduction name frames masks fps outputDir cb imread canny
        dirExists).2 = RunResult.completed ∧
    ∃ im, Ev.wrote k im ∈ (ContouredVideoProduction name frames masks fps
        outputDir cb imread canny dirExists).1 ∧ im.h = oK.h ∧ im.w = oK.w := by
  have hne : frames ≠ [] := by
    intro h
    rw [h] at hk
    simp at hk
  have he_h : (canny mK).h = oK.h := (hc mK).1.trans hdim.1
  have he_w : (canny mK).w = oK.w := (hc mK).2.trans hdim.2
  have hw := npWhere_some_of_dims he_h he_w
  obtain ⟨out, hwq, hh, hww⟩ :
      ∃ out, npWhere (canny mK) oK = some out ∧ out.h = oK.h ∧ out.w = oK.w :=
    ⟨_, hw, rfl, rfl⟩
  rw [run_ok name frames masks fps outputDir cb imread canny dirExists hne hf0 hok]
  refine ⟨rfl, out, ?_, hh, hww⟩
  refine List.mem_append.mpr (Or.inr (List.mem_cons.mpr (Or.inr
    (List.mem_append.mpr (Or.inl ?_)))))
  refine List.mem_flatMap.mpr ⟨k, List.mem_range.mpr hk, ?_⟩
  rw [stepEvs_wrote frames masks imread canny cb hko hkm hwq]
  exact List.mem_cons_self _ _

/-- C8 witness: in the concrete mixed-size run the 2×2 composite of
pair 1 is handed to the sink and the run completes. -/
theorem C8_no_dimension_check_witness :
    (ContouredVideoProduction "v" ["f0", "f1"] ["m0", "m1"] 30 (some "out") true
        imreadMixed cannyZero true).2 = RunResult.completed := by
  have h := C8_no_dimension_check "v" ["f0", "f1"] ["m0", "m1"] 30 (some "out")
    true imreadMixed cannyZero true img1A img2B mask2B 1 (by decide) (by decide)
    (by decide) (by decide) (by decide) (by decide) (fun im => ⟨rfl, rfl⟩)
  exact h.1

/-- C8 counterexample: the mixed-size run does not abort — there is no
dimension-mismatch result at all — and the 2×2 frame is handed to the
sink's write even though the run's fixed size is 1×1. -/
theorem C8_counterexample :
    (ContouredVideoProduction "w" ["f0", "f1"] ["m0", "m1"] 24 (some "out") false
        imreadMixed cannyZero true).2 = RunResult.completed ∧
    Ev.wrote 1 img2B ∈ (ContouredVideoProduction "w" ["f0", "f1"] ["m0", "m1"] 24
        (some "out") false imreadMixed cannyZero true).1 := by
  decide

/-- C9: surplus mask locations are ignored: a run whose mask list is
strictly longer behaves exactly as on the first `frames.length` masks,
and when all its pairs decode cleanly it completes normally, writing one
frame per pair. -/
theorem C9_surplus_masks (name : String) (frames masks : List String) (fps : Nat)
    (outputDir : Option String) (cb : Bool) (imread : String → Option Img)
    (canny : Img → Edg) (dirExists : Bool)
    (hlen : frames.length < masks.length) :
    ContouredVideoProduction name frames masks fps outputDir cb imread canny
        dirExists =
      ContouredVideoProduction name frames (masks.take frames.length) fps
        outputDir cb imread canny dirExists ∧
    (frames ≠ [] →
      (∀ i < frames.length, goodWritePair frames masks imread canny i = true) →
      (ContouredVideoProduction name frames masks fps outputDir cb imread canny
          dirExists).2 = RunResult.completed ∧
      (ContouredVideoProduction name frames masks fps outputDir cb imread canny
          dirExists).1.filterMap writeIdx = List.range frames.length) := by
  refine ⟨run_take name frames masks fps outputDir cb imread canny dirExists hlen,
    ?_⟩
  intro hne hgood
  obtain ⟨f0, hf0⟩ := goodWritePair_frame_some frames masks imread canny
    (hgood 0 (List.length_pos.mpr hne))
  have hok : ∀ i < frames.length, okAt frames masks imread canny i = true :=
    fun i hi => goodWritePair_ok frames masks imread canny (hgood i hi)
  constructor
  · rw [run_ok name frames masks fps outputDir cb imread canny dirExists hne
      hf0 hok]
  · exact run_writeIdx name frames masks fps outputDir cb imread canny dirExists
      hne hf0 hgood

/-- C9 witness: a concrete one-frame run with two masks equals the same
run on the first mask alone and completes normally. -/
theorem C9_surplus_masks_witness :
    ContouredVideoProduction "v" ["u0"] ["v0", "v1"] 30 none true imreadUniform
        cannyZero true =
      ContouredVideoProduction "v" ["u0"] (["v0", "v1"].take 1) 30 none true
        imreadUniform cannyZero true ∧
    (ContouredVideoProduction "v" ["u0"] ["v0", "v1"] 30 none true imreadUniform
        cannyZero true).2 = RunResult.completed := by
  have h := C9_surplus_masks "v" ["u0"] ["v0", "v1"] 30 none true imreadUniform
    cannyZero true (by decide)
  exact ⟨h.1, (h.2 (by decide) (by decide)).1⟩

/-- C6 (amended): for a frame and edge map of identical dimensions the
composite is defined and, at every in-range position, is pure white
where the edge map is set and exactly the original pixel elsewhere —
the original pixel may itself be white, so whiteness of the output does
not imply an edge. -/
theorem C6_composite_rule (e : Edg) (o : Img) (i j : Nat)
    (he : e.h = o.h) (hw : e.w = o.w)
    (hwf : ∀ p ∈ o.data, p.1 < 256 ∧ p.2.1 < 256 ∧ p.2.2 < 256)
    (hi : i < o.h) (hj : j < o.w) :
    (npWhere e o).isSome = true ∧
    ((npWhere e o).getD ⟨0, 0, []⟩).px i j =
      (if 0 < e.px i j then (255, 255, 255) else o.px i j) := by
  constructor
  · rw [npWhere_some_of_dims he hw]
    rfl
  · exact npWhere_px he hw hwf hi hj

/-- C6 witness: on a concrete 1×2 pair the edge position becomes pure
white and the non-edge position keeps the original pixel. -/
theorem C6_composite_rule_witness :
    ((npWhere ⟨1, 2, [255, 0]⟩ ⟨1, 2, [(10, 20, 30), (40, 50, 60)]⟩).getD
        ⟨0, 0, []⟩).px 0 0 = (255, 255, 255) ∧
    ((npWhere ⟨1, 2, [255, 0]⟩ ⟨1, 2, [(10, 20, 30), (40, 50, 60)]⟩).getD
        ⟨0, 0, []⟩).px 0 1 = (40, 50, 60) := by
  have h1 := C6_composite_rule ⟨1, 2, [255, 0]⟩
    ⟨1, 2, [(10, 20, 30), (40, 50, 60)]⟩ 0 0 rfl rfl (by decide) (by decide)
    (by decide)
  have h2 := C6_composite_rule ⟨1, 2, [255, 0]⟩
    ⟨1, 2, [(10, 20, 30), (40, 50, 60)]⟩ 0 1 rfl rfl (by decide) (by decide)
    (by decide)
  exact ⟨h1.2.trans (by decide), h2.2.trans (by decide)⟩

/-- C6 counterexample: an original pixel that is already pure white
stays pure white at a position the edge map does not mark, so "output
is white if and only if the edge map marks the position" fails in the
only-if direction. -/
theorem C6_counterexample :
    ((npWhere ⟨1, 1, [0]⟩ ⟨1, 1, [(255, 255, 255)]⟩).getD ⟨0, 0, []⟩).px 0 0 =
      (255, 255, 255) ∧
    Edg.px ⟨1, 1, [0]⟩ 0 0 = 0 := by
  decide

end CCM
